import Mathlib

/-!
Verification of the fuzzy enum resolution framework of `gunz_utils`
(`src/gunz_utils/enums.py`), shallowly embedded in Lean 4.

The embedding models:
- `BaseStrEnum` (`StrEnum` here): fuzzy string resolution with alias table,
  lazily built fuzzy lookup map (normalized value + lowercase name keys,
  first-wins insertion), and `get_or_none`;
- `OptionalBaseStrEnum`: the NONE-sentinel subclass with its
  `__init_subclass__` check and `_missing_` hook (fuel-bounded, since the
  alias-target fallback `cls(...)` can re-enter `from_fuzzy_string`);
- `BaseIntEnum` (`IntEnum` here): alias table, lowercase-name lookup map,
  and Python `int()` string parsing as the numeric fallback.

Strings are modelled over their character lists; Python's `str.lower` is
modelled ASCII-wise via `Char.toLower`, and `str.replace` with single
character patterns as a character map, which matches the source's usage.
-/

/-- A member of a string enum: its declaration name and its string value. -/
structure StrMember where
  name : String
  value : String
deriving DecidableEq

/-- A string enum type: class name, members in declaration order, and the
`__ALIASES__` table (lowercase alias key -> target member value). -/
structure StrEnum where
  ename : String
  members : List StrMember
  aliases : List (String × String)

/-- A member of an integer enum. -/
structure IntMember where
  name : String
  value : Int
deriving DecidableEq

/-- An integer enum type with its `__ALIASES__` table (string key -> int target). -/
structure IntEnum where
  ename : String
  members : List IntMember
  aliases : List (String × Int)

/-- Python `str.lower()` (ASCII model), applied character-wise. -/
def pyLower (s : String) : String := String.mk (s.data.map Char.toLower)

/-- Python `str.replace(a, b)` where `a` and `b` are single characters. -/
def pyReplace (s : String) (a b : Char) : String :=
  String.mk (s.data.map (fun c => if c = a then b else c))

/-- The source's separator normalization: `.replace("-", "_").replace(" ", "_")`. -/
def normSep (s : String) : String := pyReplace (pyReplace s '-' '_') ' ' '_'

/-- Python `dict` lookup modelled on an association list (keys unique). -/
def alookup (k : String) : List (String × α) → Option α
  | [] => none
  | (k2, v) :: rest => if k2 = k then some v else alookup k rest

/-- `lookup_map[key] = member` guarded by `if key not in lookup_map`. -/
def insertIfAbsent (acc : List (String × α)) (k : String) (v : α) : List (String × α) :=
  match alookup k acc with
  | some _ => acc
  | none => acc ++ [(k, v)]

/-- The lazy lookup-map construction loop shared by `_get_fuzzy_map` and
`_get_name_lookup_map`: iterate members in declaration order and insert each
of the member's keys if not already present (first member wins). -/
def buildLookupMap (keysOf : α → List String) : List α → List (String × α) → List (String × α)
  | [], acc => acc
  | m :: rest, acc =>
      buildLookupMap keysOf rest ((keysOf m).foldl (fun a k => insertIfAbsent a k m) acc)

/-- The keys `_get_fuzzy_map` registers for one member: normalized value, then
lowercase name. -/
def strMemberKeys (m : StrMember) : List String :=
  [normSep (pyLower m.value), pyLower m.name]

/-- `BaseStrEnum._get_fuzzy_map`. -/
def fuzzyMap (E : StrEnum) : List (String × StrMember) :=
  buildLookupMap strMemberKeys E.members []

/-- The keys `_get_name_lookup_map` registers for one member: lowercase name only. -/
def intMemberKeys (m : IntMember) : List String := [pyLower m.name]

/-- `BaseIntEnum._get_name_lookup_map`. -/
def nameLookupMap (E : IntEnum) : List (String × IntMember) :=
  buildLookupMap intMemberKeys E.members []

/-- `cls._value2member_map_` lookup for a string enum (first member whose
value equals `v`; values are unique in a verified enum). -/
def findByValue (v : String) : List StrMember → Option StrMember
  | [] => none
  | m :: rest => if m.value = v then some m else findByValue v rest

/-- `cls._value2member_map_` lookup, packaged on the enum type. -/
def value2member (E : StrEnum) (v : String) : Option StrMember :=
  findByValue v E.members

/-- `cls._value2member_map_` lookup for an integer enum. -/
def findByIntValue (v : Int) : List IntMember → Option IntMember
  | [] => none
  | m :: rest => if m.value = v then some m else findByIntValue v rest

/-- Integer `_value2member_map_` lookup, packaged on the enum type. -/
def intValue2member (E : IntEnum) (v : Int) : Option IntMember :=
  findByIntValue v E.members

/-- `cls.__members__` lookup by member name. -/
def findByName (n : String) : List StrMember → Option StrMember
  | [] => none
  | m :: rest => if m.name = n then some m else findByName n rest

/-- The broken-alias error message raised at lines 111 / 258 of `enums.py`. -/
def brokenAliasMsg (tgt ename : String) : String :=
  "Alias target '" ++ tgt ++ "' is not a valid member value for " ++ ename

/-- The `InvalidValue` error message raised at lines 129-132 / 276-279 of
`enums.py`: quoted input, class name, and quoted member values joined by
`", "` in declaration order. -/
def invalidValueMsg (ename input : String) (vals : List String) : String :=
  "'" ++ input ++ "' is not a valid " ++ ename ++ ". Please use one of: " ++
    String.intercalate ", " (vals.map (fun v => "'" ++ v ++ "'"))

/-- The `InvalidValue` message of `BaseStrEnum.from_fuzzy_string`. -/
def strInvalidMsg (E : StrEnum) (s : String) : String :=
  invalidValueMsg E.ename s (E.members.map StrMember.value)

/-- The `InvalidValue` message of `BaseIntEnum.from_fuzzy_int_string`. -/
def intInvalidMsg (E : IntEnum) (s : String) : String :=
  invalidValueMsg E.ename s (E.members.map (fun m => toString m.value))

/-- Plain `cls(value)` for `BaseStrEnum` with a string argument: exact value
lookup; the inherited `Enum._missing_` returns `None`, so the enum machinery
raises `ValueError(f"{value!r} is not a valid {cls.__name__}")`. -/
def plainCall (E : StrEnum) (s : String) : Except String StrMember :=
  match value2member E s with
  | some m => Except.ok m
  | none => Except.error ("'" ++ s ++ "' is not a valid " ++ E.ename)

/-- Plain `cls(value)` for `BaseIntEnum` with an integer argument. -/
def intPlainCall (E : IntEnum) (v : Int) : Except String IntMember :=
  match intValue2member E v with
  | some m => Except.ok m
  | none => Except.error (toString v ++ " is not a valid " ++ E.ename)

/-- The alias branch of `from_fuzzy_string` (lines 100-111): value-map check,
then a `cls(alias_target_value)` fallback whose `ValueError` is converted to
the broken-alias error. -/
def aliasResolveStr (E : StrEnum) (tgt : String) : Except String StrMember :=
  match value2member E tgt with
  | some m => Except.ok m
  | none =>
      match plainCall E tgt with
      | Except.ok m => Except.ok m
      | Except.error _ => Except.error (brokenAliasMsg tgt E.ename)

/-- Steps 2-3 of `from_fuzzy_string` (lines 113-132): raw-lowercase probe of
the fuzzy map, then the separator-normalized probe, then the `InvalidValue`
error. -/
def fuzzyStep (E : StrEnum) (s : String) : Except String StrMember :=
  match alookup (pyLower s) (fuzzyMap E) with
  | some m => Except.ok m
  | none =>
      match alookup (normSep (pyLower s)) (fuzzyMap E) with
      | some m => Except.ok m
      | none => Except.error (strInvalidMsg E s)

/-- `BaseStrEnum.from_fuzzy_string` (lines 90-132). -/
def fromFuzzyString (E : StrEnum) (s : String) : Except String StrMember :=
  match alookup (pyLower s) E.aliases with
  | some tgt => aliasResolveStr E tgt
  | none => fuzzyStep E s

/-- The alias branch of `from_fuzzy_int_string` (lines 249-258). -/
def aliasResolveInt (E : IntEnum) (tgt : Int) : Except String IntMember :=
  match intValue2member E tgt with
  | some m => Except.ok m
  | none =>
      match intPlainCall E tgt with
      | Except.ok m => Except.ok m
      | Except.error _ => Except.error (brokenAliasMsg (toString tgt) E.ename)

/-- Python ASCII whitespace accepted (and stripped) by `int(str)`. -/
def isPyWs (c : Char) : Bool :=
  c == ' ' || c == '\t' || c == '\n' || c == '\x0d' || c == '\x0b' || c == '\x0c'

/-- Digit accumulation for Python `int(str)`: a single `_` is allowed only
between two digits. -/
def digitsAux : List Char → Nat → Option Nat
  | [], acc => some acc
  | '_' :: c :: rest, acc =>
      if c.isDigit then digitsAux rest (acc * 10 + (c.toNat - 48)) else none
  | ['_'], _ => none
  | c :: rest, acc =>
      if c.isDigit then digitsAux rest (acc * 10 + (c.toNat - 48)) else none

/-- A nonempty Python digit part: leading digit, then `digitsAux`. -/
def digitPart (l : List Char) : Option Nat :=
  match l with
  | [] => none
  | c :: rest => if c.isDigit then digitsAux rest (c.toNat - 48) else none

/-- Python `int(str)` (ASCII model): strip whitespace, optional sign, digit
part with underscore separators. Returns `none` where Python raises
`ValueError`. -/
def pyIntOfString (s : String) : Option Int :=
  match (((s.data.dropWhile isPyWs).reverse.dropWhile isPyWs).reverse : List Char) with
  | '+' :: rest => (digitPart rest).map (fun n => (n : Int))
  | '-' :: rest => (digitPart rest).map (fun n => -(n : Int))
  | rest => (digitPart rest).map (fun n => (n : Int))

/-- Steps 2-3 of `from_fuzzy_int_string` (lines 260-279): lowercase-name map
probe, then `int(value_str)` conversion (whose failure, and the `ValueError`
from the trailing `cls(int_value)`, are swallowed by the `except` clause),
then the `InvalidValue` error. -/
def intFuzzyStep (E : IntEnum) (s : String) : Except String IntMember :=
  match alookup (pyLower s) (nameLookupMap E) with
  | some m => Except.ok m
  | none =>
      match pyIntOfString s with
      | some n =>
          (match intValue2member E n with
           | some m => Except.ok m
           | none =>
              match intPlainCall E n with
              | Except.ok m => Except.ok m
              | Except.error _ => Except.error (intInvalidMsg E s))
      | none => Except.error (intInvalidMsg E s)

/-- `BaseIntEnum.from_fuzzy_int_string` (lines 239-279): alias table first,
then the name-map / numeric steps. -/
def fromFuzzyIntString (E : IntEnum) (s : String) : Except String IntMember :=
  match alookup (pyLower s) E.aliases with
  | some tgt => aliasResolveInt E tgt
  | none => intFuzzyStep E s

/-- The possible arguments of `BaseStrEnum.get_or_none`: an existing member,
a string, an integer, `None`, or any other object that is not a string and
compares unequal to every member value. -/
inductive StrInput where
  | member (m : StrMember)
  | str (s : String)
  | intVal (n : Int)
  | noneVal
  | other

/-- `BaseStrEnum.get_or_none` (lines 149-168): member passthrough, then
`cls(value)` with errors swallowed, then (for strings) `from_fuzzy_string`
with errors swallowed, else `None`. -/
def strGetOrNone (E : StrEnum) : StrInput → Option StrMember
  | StrInput.member m => some m
  | StrInput.str s =>
      (match plainCall E s with
       | Except.ok m => some m
       | Except.error _ =>
          match fromFuzzyString E s with
          | Except.ok m => some m
          | Except.error _ => none)
  | StrInput.intVal _ => none
  | StrInput.noneVal => none
  | StrInput.other => none

/-- The possible arguments of `BaseIntEnum.get_or_none`. -/
inductive IntInput where
  | member (m : IntMember)
  | intVal (n : Int)
  | str (s : String)
  | noneVal
  | other

/-- `BaseIntEnum.get_or_none` (lines 293-312): member passthrough, explicit
`None` short-circuit, `cls(value)` with errors swallowed (which can only
succeed for integer input, since the value map is keyed by integers), then
fuzzy resolution for strings, else `None`. -/
def intGetOrNone (E : IntEnum) : IntInput → Option IntMember
  | IntInput.member m => some m
  | IntInput.noneVal => none
  | IntInput.intVal n =>
      (match intPlainCall E n with
       | Except.ok m => some m
       | Except.error _ => none)
  | IntInput.str s =>
      (match fromFuzzyIntString E s with
       | Except.ok m => some m
       | Except.error _ => none)
  | IntInput.other => none

/-- `cls.NONE` of an optional enum. -/
def getNoneMember (E : StrEnum) : Option StrMember := findByName "NONE" E.members

/-- `OptionalBaseStrEnum.__init_subclass__` (lines 183-189): the type is
rejected at definition time when no member is named `NONE`. -/
def initOptionalSubclass (E : StrEnum) : Except String StrEnum :=
  match findByName "NONE" E.members with
  | some _ => Except.ok E
  | none =>
      Except.error ("Class " ++ E.ename ++
        " must define a NONE member when inheriting from OptionalBaseStrEnum. Example: NONE = 'none'")

/-- `@enum.verify(enum.UNIQUE)`: enum definition fails when two members share
a value; aliases are not inspected. -/
def verifyUnique (E : StrEnum) : Except String StrEnum :=
  if (E.members.map StrMember.value).Nodup then Except.ok E
  else Except.error ("duplicate values found in " ++ E.ename)

/-- `@enum.verify(enum.UNIQUE)` on `BaseIntEnum` subclasses: definition fails
only when two members share a value; aliases are not inspected. -/
def verifyIntUnique (E : IntEnum) : Except String IntEnum :=
  if (E.members.map IntMember.value).Nodup then Except.ok E
  else Except.error ("duplicate values found in " ++ E.ename)

/-- Resolution for `OptionalBaseStrEnum`, fuel-bounded because the alias
fallback `cls(alias_target_value)` re-enters `from_fuzzy_string` through the
overridden `_missing_` hook. `mode = true` is `from_fuzzy_string` (inherited
from `BaseStrEnum`, but with `cls(...)` dispatching to the optional
semantics); `mode = false` is `cls(s)`: exact value lookup, then `_missing_`
(fuzzy resolution, whose `ValueError` lets the enum machinery raise the
standard message). -/
def optResolve (E : StrEnum) : Nat → Bool → String → Except String StrMember
  | 0, _, _ => Except.error "RecursionError: maximum recursion depth exceeded"
  | Nat.succ fuel, true, s =>
      (match alookup (pyLower s) E.aliases with
       | some tgt =>
          (match value2member E tgt with
           | some m => Except.ok m
           | none =>
              match optResolve E fuel false tgt with
              | Except.ok m => Except.ok m
              | Except.error _ => Except.error (brokenAliasMsg tgt E.ename))
       | none => fuzzyStep E s)
  | Nat.succ fuel, false, s =>
      (match value2member E s with
       | some m => Except.ok m
       | none =>
          match optResolve E fuel true s with
          | Except.ok m => Except.ok m
          | Except.error _ => Except.error ("'" ++ s ++ "' is not a valid " ++ E.ename))

/-- `cls(value)` for `OptionalBaseStrEnum` where the argument is a string or
`None` (lines 191-203): `None` resolves to `cls.NONE` through `_missing_`,
bypassing aliases, normalization and the fuzzy map entirely. -/
def optCall (E : StrEnum) (fuel : Nat) : Option String → Except String StrMember
  | Option.none =>
      (match getNoneMember E with
       | some m => Except.ok m
       | none => Except.error ("AttributeError: " ++ E.ename ++ " has no member NONE"))
  | Option.some s => optResolve E fuel false s

/-- The `Color` enum of the repository's test suite (`test_enums.py`). -/
def colorEnum : StrEnum :=
  { ename := "Color",
    members := [⟨"RED", "red"⟩, ⟨"BLUE", "blue"⟩, ⟨"DARK_BLUE", "dark_blue"⟩,
                ⟨"LIGHT_GREEN", "light green"⟩],
    aliases := [("dark", "dark_blue"), ("crimson", "red")] }

/-- The `ErrorCode` enum of the repository's test suite. -/
def errorCodeEnum : IntEnum :=
  { ename := "ErrorCode",
    members := [⟨"OK", 200⟩, ⟨"NOT_FOUND", 404⟩],
    aliases := [("missing", 404), ("ok", 200)] }

/-- The `TestStr` enum of `test_enums_security.py`. -/
def testStrEnum : StrEnum :=
  { ename := "TestStr", members := [⟨"A", "a"⟩], aliases := [] }

/-- The `Status` optional enum of the repository's test suite. -/
def statusEnum : StrEnum :=
  { ename := "Status", members := [⟨"NONE", "none"⟩, ⟨"ACTIVE", "active"⟩], aliases := [] }

/-- The `BadStatus` optional enum of the repository's test suite (no `NONE`). -/
def badStatusEnum : StrEnum :=
  { ename := "BadStatus", members := [⟨"ACTIVE", "active"⟩], aliases := [] }

/-- An optional enum with an alias, for exercising construction-time fuzzing. -/
def statusAliasEnum : StrEnum :=
  { ename := "Status",
    members := [⟨"NONE", "none"⟩, ⟨"ACTIVE", "active"⟩],
    aliases := [("act", "active")] }

/-- A string enum whose two distinct values collide after separator
normalization (legal in Python: values are unique, `enum.UNIQUE` passes). -/
def pairEnum : StrEnum :=
  { ename := "Pair",
    members := [⟨"X", "a-b"⟩, ⟨"Y", "a_b"⟩],
    aliases := [] }

/-- A string enum whose alias points at a value with no member. -/
def brokenAliasEnum : StrEnum :=
  { ename := "Palette",
    members := [⟨"RED", "red"⟩],
    aliases := [("dark", "navy")] }

/-- An integer enum whose alias points at a value with no member. -/
def brokenAliasIntEnum : IntEnum :=
  { ename := "Code",
    members := [⟨"OK", 200⟩],
    aliases := [("missing", 404)] }

/-- The 1025-character input of `test_enums_security.py`. -/
def longInput : String := String.mk (List.replicate 1025 'a')

/-! ### Lookup-map construction lemmas -/

theorem alookup_append (k : String) (l1 l2 : List (String × α)) :
    alookup k (l1 ++ l2) =
      (match alookup k l1 with
       | some v => some v
       | none => alookup k l2) := by
  induction l1 with
  | nil => simp [alookup]
  | cons p t ih =>
      obtain ⟨k2, v⟩ := p
      by_cases h : k2 = k <;> simp [alookup, h, ih]

theorem alookup_insertIfAbsent_of_some {w : α} {acc : List (String × α)}
    (h : alookup k2 acc = some v) :
    alookup k2 (insertIfAbsent acc k w) = some v := by
  unfold insertIfAbsent
  cases hk : alookup k acc with
  | some _ => exact h
  | none => rw [alookup_append, h]

theorem alookup_insertIfAbsent_of_none {w : α} {acc : List (String × α)}
    (hne : k2 ≠ k) (h : alookup k2 acc = none) :
    alookup k2 (insertIfAbsent acc k w) = none := by
  unfold insertIfAbsent
  cases hk : alookup k acc with
  | some _ => exact h
  | none =>
      rw [alookup_append, h]
      simp [alookup]
      exact Ne.symm hne

theorem alookup_insertIfAbsent_self {w : α} {acc : List (String × α)}
    (h : alookup k acc = none) :
    alookup k (insertIfAbsent acc k w) = some w := by
  unfold insertIfAbsent
  rw [h, alookup_append, h]
  simp [alookup]

theorem alookup_insertIfAbsent_sub {w : α} {acc : List (String × α)}
    (h : alookup k2 (insertIfAbsent acc k w) = some v) :
    alookup k2 acc = some v ∨ (k2 = k ∧ v = w) := by
  unfold insertIfAbsent at h
  cases hk : alookup k acc with
  | some _ => rw [hk] at h; exact Or.inl h
  | none =>
      rw [hk, alookup_append] at h
      cases h2 : alookup k2 acc with
      | some _ => rw [h2] at h; exact Or.inl h
      | none =>
          rw [h2] at h
          simp only [alookup] at h
          by_cases he : k = k2
          · simp [he] at h
            exact Or.inr ⟨he.symm, h.symm⟩
          · simp [he] at h

theorem alookup_foldlInsert_of_some {m : α} {acc : List (String × α)} (ks : List String)
    (h : alookup k2 acc = some v) :
    alookup k2 (ks.foldl (fun a k => insertIfAbsent a k m) acc) = some v := by
  induction ks generalizing acc with
  | nil => exact h
  | cons k0 t ih => exact ih (alookup_insertIfAbsent_of_some h)

theorem alookup_foldlInsert_of_notMem {m : α} {acc : List (String × α)} (ks : List String)
    (hn : k2 ∉ ks) (h : alookup k2 acc = none) :
    alookup k2 (ks.foldl (fun a k => insertIfAbsent a k m) acc) = none := by
  induction ks generalizing acc with
  | nil => exact h
  | cons k0 t ih =>
      have hne : k2 ≠ k0 := fun he => hn (he ▸ List.mem_cons_self k0 t)
      exact ih (fun ht => hn (List.mem_cons_of_mem _ ht)) (alookup_insertIfAbsent_of_none hne h)

theorem alookup_foldlInsert_mem {m : α} {acc : List (String × α)} (ks : List String)
    (hmem : k2 ∈ ks) (h : alookup k2 acc = none) :
    alookup k2 (ks.foldl (fun a k => insertIfAbsent a k m) acc) = some m := by
  induction ks generalizing acc with
  | nil => cases hmem
  | cons k0 t ih =>
      by_cases he : k2 = k0
      · subst he
        exact alookup_foldlInsert_of_some t (alookup_insertIfAbsent_self h)
      · have ht : k2 ∈ t := by
          rcases List.mem_cons.mp hmem with h1 | h1
          · exact absurd h1 he
          · exact h1
        exact ih ht (alookup_insertIfAbsent_of_none he h)

theorem alookup_foldlInsert_sub {m : α} {acc : List (String × α)} (ks : List String)
    (h : alookup k2 (ks.foldl (fun a k => insertIfAbsent a k m) acc) = some v) :
    alookup k2 acc = some v ∨ (k2 ∈ ks ∧ v = m) := by
  induction ks generalizing acc with
  | nil => exact Or.inl h
  | cons k0 t ih =>
      rcases ih h with h1 | h1
      · rcases alookup_insertIfAbsent_sub h1 with h2 | h2
        · exact Or.inl h2
        · exact Or.inr ⟨h2.1 ▸ List.mem_cons_self k0 t, h2.2⟩
      · exact Or.inr ⟨List.mem_cons_of_mem _ h1.1, h1.2⟩

theorem buildLookupMap_of_some (keysOf : α → List String) (rest : List α)
    {acc : List (String × α)} (h : alookup k acc = some v) :
    alookup k (buildLookupMap keysOf rest acc) = some v := by
  induction rest generalizing acc with
  | nil => exact h
  | cons m0 t ih => exact ih (alookup_foldlInsert_of_some _ h)

theorem buildLookupMap_mem (keysOf : α → List String) (rest : List α)
    {acc : List (String × α)}
    (hp : rest.Pairwise (fun m1 m2 => ∀ k0 ∈ keysOf m1, k0 ∉ keysOf m2))
    (hacc : ∀ m2 ∈ rest, ∀ k0 ∈ keysOf m2, alookup k0 acc = none)
    (hm : m ∈ rest) (hk : k ∈ keysOf m) :
    alookup k (buildLookupMap keysOf rest acc) = some m := by
  induction rest generalizing acc with
  | nil => cases hm
  | cons m0 t ih =>
      rcases List.pairwise_cons.mp hp with ⟨hd, ht⟩
      rcases List.mem_cons.mp hm with h1 | h1
      · subst h1
        exact buildLookupMap_of_some keysOf t
          (alookup_foldlInsert_mem _ hk (hacc m hm k hk))
      · refine ih ht ?_ h1
        intro m2 hm2 k0 hk0
        have hnot : k0 ∉ keysOf m0 := fun hin => hd m2 hm2 k0 hin hk0
        exact alookup_foldlInsert_of_notMem _ hnot
          (hacc m2 (List.mem_cons_of_mem _ hm2) k0 hk0)

theorem buildLookupMap_sub (keysOf : α → List String) (rest : List α)
    {acc : List (String × α)}
    (h : alookup k (buildLookupMap keysOf rest acc) = some v) :
    alookup k acc = some v ∨ ∃ m ∈ rest, k ∈ keysOf m ∧ v = m := by
  induction rest generalizing acc with
  | nil => exact Or.inl h
  | cons m0 t ih =>
      rcases ih h with h1 | h1
      · rcases alookup_foldlInsert_sub _ h1 with h2 | h2
        · exact Or.inl h2
        · exact Or.inr ⟨m0, List.mem_cons_self m0 t, h2.1, h2.2⟩
      · obtain ⟨m1, hm1, hk1, hv1⟩ := h1
        exact Or.inr ⟨m1, List.mem_cons_of_mem _ hm1, hk1, hv1⟩

/-! ### Character and normalization lemmas -/

theorem char_toNat_ofNat (n : Nat) (h : n < 55296) : (Char.ofNat n).toNat = n := by
  have hv : n.isValidChar := Or.inl h
  unfold Char.ofNat
  rw [dif_pos hv]
  rfl

theorem toLower_of_upper (c : Char) (h : 65 ≤ c.toNat ∧ c.toNat ≤ 90) :
    (Char.toLower c).toNat = c.toNat + 32 := by
  unfold Char.toLower
  rw [if_pos h]
  exact char_toNat_ofNat _ (by omega)

theorem toLower_of_not_upper (c : Char) (h : ¬(65 ≤ c.toNat ∧ c.toNat ≤ 90)) :
    Char.toLower c = c := by
  unfold Char.toLower
  rw [if_neg h]

theorem toLower_idem (c : Char) : Char.toLower (Char.toLower c) = Char.toLower c := by
  by_cases h : 65 ≤ c.toNat ∧ c.toNat ≤ 90
  · have h1 := toLower_of_upper c h
    exact toLower_of_not_upper _ (by omega)
  · rw [toLower_of_not_upper c h]
    exact toLower_of_not_upper c h

theorem toLower_eq_low_iff (c d : Char) (hd : d.toNat < 65) :
    Char.toLower c = d ↔ c = d := by
  constructor
  · intro h
    by_cases hr : 65 ≤ c.toNat ∧ c.toNat ≤ 90
    · have h1 := toLower_of_upper c hr
      rw [h] at h1
      omega
    · rwa [toLower_of_not_upper c hr] at h
  · intro h
    subst h
    exact toLower_of_not_upper c (by omega)

/-- The composite character substitution performed by
`.replace("-", "_").replace(" ", "_")`. -/
def sepFold (c : Char) : Char :=
  if c = '-' then '_' else if c = ' ' then '_' else c

theorem sepFold_comp (c : Char) :
    (if (if c = '-' then '_' else c) = ' ' then '_' else (if c = '-' then '_' else c)) =
      sepFold c := by
  by_cases h1 : c = '-'
  · simp [sepFold, h1]
  · by_cases h2 : c = ' ' <;> simp [sepFold, h1, h2]

theorem normSep_data (s : String) : normSep s = String.mk (s.data.map sepFold) := by
  unfold normSep pyReplace
  simp only [List.map_map]
  congr 1
  exact List.map_congr_left (fun c _ => sepFold_comp c)

theorem sepFold_idem (c : Char) : sepFold (sepFold c) = sepFold c := by
  by_cases h1 : c = '-'
  · simp [sepFold, h1]
  · by_cases h2 : c = ' ' <;> simp [sepFold, h1, h2]

theorem sepFold_eq_self (c : Char) (h1 : c ≠ '-') (h2 : c ≠ ' ') : sepFold c = c := by
  simp [sepFold, h1, h2]

theorem normSep_idem (s : String) : normSep (normSep s) = normSep s := by
  rw [normSep_data s, normSep_data]
  simp only [List.map_map]
  congr 1
  exact List.map_congr_left (fun c _ => sepFold_idem c)

theorem pyLower_idem (s : String) : pyLower (pyLower s) = pyLower s := by
  unfold pyLower
  simp only [List.map_map]
  congr 1
  exact List.map_congr_left (fun c _ => toLower_idem c)

theorem normSep_fixed_of_sepFree (l : List Char) (h : ∀ c ∈ l, c ≠ '-' ∧ c ≠ ' ') :
    normSep (String.mk l) = String.mk l := by
  rw [normSep_data]
  congr 1
  calc l.map sepFold = l.map id :=
        List.map_congr_left (fun c hc => sepFold_eq_self c (h c hc).1 (h c hc).2)
    _ = l := List.map_id l

theorem toLower_sepFree (c : Char) (h1 : c ≠ '-') (h2 : c ≠ ' ') :
    Char.toLower c ≠ '-' ∧ Char.toLower c ≠ ' ' := by
  constructor
  · intro he
    exact h1 ((toLower_eq_low_iff c '-' (by decide)).mp he)
  · intro he
    exact h2 ((toLower_eq_low_iff c ' ' (by decide)).mp he)

/-- Python member names are attribute identifiers, so they contain neither
`-` nor a space; this predicate records that structural guarantee. -/
abbrev NamesSepFree (E : StrEnum) : Prop :=
  ∀ m ∈ E.members, ∀ c ∈ m.name.data, c ≠ '-' ∧ c ≠ ' '

/-- The fuzzy map of a well-formed enum never maps two distinct members to a
common key (first-wins insertion never triggers across members). -/
abbrev NoKeyCollision (E : StrEnum) : Prop :=
  E.members.Pairwise (fun m1 m2 => ∀ k ∈ strMemberKeys m1, k ∉ strMemberKeys m2)

theorem nameKey_fixed (m : StrMember) (h : ∀ c ∈ m.name.data, c ≠ '-' ∧ c ≠ ' ') :
    normSep (pyLower m.name) = pyLower m.name := by
  unfold pyLower
  refine normSep_fixed_of_sepFree _ ?_
  intro c hc
  obtain ⟨c0, hc0, rfl⟩ := List.mem_map.mp hc
  exact toLower_sepFree c0 (h c0 hc0).1 (h c0 hc0).2

theorem fuzzyMap_lookup_of_key (E : StrEnum) (hp : NoKeyCollision E)
    (hm : m ∈ E.members) (hk : k ∈ strMemberKeys m) :
    alookup k (fuzzyMap E) = some m :=
  buildLookupMap_mem strMemberKeys E.members hp
    (fun _ _ _ _ => rfl) hm hk

theorem fuzzyMap_lookup_shape (E : StrEnum)
    (h : alookup k (fuzzyMap E) = some v) :
    ∃ m ∈ E.members, k ∈ strMemberKeys m ∧ v = m := by
  rcases buildLookupMap_sub strMemberKeys E.members h with h1 | h1
  · cases h1
  · exact h1

theorem fuzzyMap_key_fixed (E : StrEnum) (hnames : NamesSepFree E)
    (h : alookup k (fuzzyMap E) = some v) :
    normSep k = k := by
  obtain ⟨m, hm, hk, _⟩ := fuzzyMap_lookup_shape E h
  rcases List.mem_cons.mp hk with h1 | h1
  · rw [h1]
    exact normSep_idem _
  · have h2 : k = pyLower m.name := by
      simpa using h1
    rw [h2]
    exact nameKey_fixed m (hnames m hm)

theorem nameLookupMap_shape (E : IntEnum)
    (h : alookup k (nameLookupMap E) = some v) :
    ∃ m ∈ E.members, k = pyLower m.name ∧ v = m := by
  rcases buildLookupMap_sub intMemberKeys E.members h with h1 | h1
  · cases h1
  · obtain ⟨m, hm, hk, hv⟩ := h1
    exact ⟨m, hm, by simpa [intMemberKeys] using hk, hv⟩

theorem findByValue_of_nodup (l : List StrMember)
    (hnd : (l.map StrMember.value).Nodup) (hm : m ∈ l) :
    findByValue m.value l = some m := by
  induction l with
  | nil => cases hm
  | cons h0 t ih =>
      rcases List.nodup_cons.mp hnd with ⟨hn0, hnt⟩
      by_cases he : h0.value = m.value
      · rcases List.mem_cons.mp hm with h1 | h1
        · rw [h1]
          simp [findByValue]
        · exact absurd (he ▸ List.mem_map_of_mem StrMember.value h1) hn0
      · have h1 : m ∈ t := by
          rcases List.mem_cons.mp hm with h2 | h2
          · exact absurd (h2 ▸ rfl) he
          · exact h2
        simp only [findByValue, if_neg he]
        exact ih hnt h1

theorem findByIntValue_of_nodup (l : List IntMember)
    (hnd : (l.map IntMember.value).Nodup) (hm : m ∈ l) :
    findByIntValue m.value l = some m := by
  induction l with
  | nil => cases hm
  | cons h0 t ih =>
      rcases List.nodup_cons.mp hnd with ⟨hn0, hnt⟩
      by_cases he : h0.value = m.value
      · rcases List.mem_cons.mp hm with h1 | h1
        · rw [h1]
          simp [findByIntValue]
        · exact absurd (he ▸ List.mem_map_of_mem IntMember.value h1) hn0
      · have h1 : m ∈ t := by
          rcases List.mem_cons.mp hm with h2 | h2
          · exact absurd (h2 ▸ rfl) he
          · exact h2
        simp only [findByIntValue, if_neg he]
        exact ih hnt h1

/-! ### Claim theorems -/

set_option maxRecDepth 100000 in
/-- Claim C1 (code-bug evidence): `from_fuzzy_string` contains no input-length
guard. The 1025-character input used by `test_enums_security.py` (on its
`TestStr` enum) runs through the whole resolution pipeline and fails with the
generic `InvalidValue` message — not with the distinct "Input string too
long" error that the spec and the repository's own security tests require. -/
theorem c1_no_length_guard_at_1025 :
    longInput.length = 1025 ∧
    fromFuzzyString testStrEnum longInput =
      Except.error ("'" ++ longInput ++ "' is not a valid TestStr. Please use one of: 'a'") := by
  exact ⟨rfl, rfl⟩

/-- Claim C2 counterexample: the claim fails as stated. In the legal enum
`pairEnum` (values `"a-b"` and `"a_b"` are distinct, so `enum.UNIQUE`
passes), both values normalize to the key `"a_b"`; first-wins insertion binds
it to member `X`, so resolving member `Y`'s own value returns `X`, not `Y`,
with no alias involved. -/
theorem c2_counterexample :
    (⟨"Y", "a_b"⟩ : StrMember) ∈ pairEnum.members ∧
    pairEnum.aliases = [] ∧
    fromFuzzyString pairEnum (StrMember.value ⟨"Y", "a_b"⟩) = Except.ok ⟨"X", "a-b"⟩ ∧
    fromFuzzyString pairEnum (StrMember.value ⟨"Y", "a_b"⟩) ≠ Except.ok ⟨"Y", "a_b"⟩ := by
  refine ⟨by simp [pairEnum], rfl, rfl, ?_⟩
  intro h
  have h0 : fromFuzzyString pairEnum (StrMember.value ⟨"Y", "a_b"⟩) =
      Except.ok ⟨"X", "a-b"⟩ := rfl
  have h2 := Except.ok.inj (h0.symm.trans h)
  exact absurd h2 (by decide)

/-- Claim C2 (amended): for a string enum whose fuzzy-map keys do not collide
across distinct members and whose member names are identifiers (no `-` or
space, as Python guarantees), every member `m` is returned when resolving any
case/separator variant `q` of `m.value` and when resolving `m.name.lower()`,
provided no alias is declared over the probed lowercase keys. -/
theorem c2_fuzzy_roundtrip (E : StrEnum) (m : StrMember) (q : String)
    (hm : m ∈ E.members) (hcol : NoKeyCollision E) (hnames : NamesSepFree E)
    (hq : normSep (pyLower q) = normSep (pyLower m.value))
    (haq : alookup (pyLower q) E.aliases = none)
    (han : alookup (pyLower m.name) E.aliases = none) :
    fromFuzzyString E q = Except.ok m ∧
    fromFuzzyString E (pyLower m.name) = Except.ok m := by
  have hvalkey : alookup (normSep (pyLower m.value)) (fuzzyMap E) = some m :=
    fuzzyMap_lookup_of_key E hcol hm (by simp [strMemberKeys])
  have hnamekey : alookup (pyLower m.name) (fuzzyMap E) = some m :=
    fuzzyMap_lookup_of_key E hcol hm (by simp [strMemberKeys])
  constructor
  · simp only [fromFuzzyString, haq]
    simp only [fuzzyStep]
    cases hraw : alookup (pyLower q) (fuzzyMap E) with
    | some v =>
        have hfix := fuzzyMap_key_fixed E hnames hraw
        have he := hfix.symm.trans hq
        rw [he, hvalkey] at hraw
        injection hraw with h3
        rw [h3]
    | none =>
        simp only [hq, hvalkey]
  · simp only [fromFuzzyString, pyLower_idem, han]
    simp only [fuzzyStep, pyLower_idem, hnamekey]

/-- Claim C2 witness: the amended round trip on the test-suite `Color` enum,
member `LIGHT_GREEN = "light green"`. -/
theorem c2_fuzzy_roundtrip_witness :
    fromFuzzyString colorEnum "LIGHT-GREEN" = Except.ok ⟨"LIGHT_GREEN", "light green"⟩ ∧
    fromFuzzyString colorEnum "light_green" = Except.ok ⟨"LIGHT_GREEN", "light green"⟩ := by
  have h := c2_fuzzy_roundtrip colorEnum ⟨"LIGHT_GREEN", "light green"⟩ "LIGHT-GREEN"
      (by decide) (by decide) (by decide) (by decide) (by decide) (by decide)
  exact ⟨h.1, h.2⟩

/-- Claim C3: for both enum variants, a declared alias `(k -> v)` whose
target `v` is a member value resolves, for any letter case of the key, to
the member whose value is `v`; the alias branch takes precedence over (and
is independent of) the fuzzy/name cache; and the alias table is probed with
the raw lowercased query only — no separator normalization is applied before
alias lookup. -/
theorem c3_alias_resolution (E : StrEnum) (F : IntEnum)
    (c k v : String) (m : StrMember) (c2 k2 : String) (w : Int) (m2 : IntMember)
    (hck : pyLower c = k)
    (hk : alookup k E.aliases = some v)
    (hm : m ∈ E.members) (hmv : m.value = v)
    (hnd : (E.members.map StrMember.value).Nodup)
    (hck2 : pyLower c2 = k2)
    (hk2 : alookup k2 F.aliases = some w)
    (hm2 : m2 ∈ F.members) (hmv2 : m2.value = w)
    (hnd2 : (F.members.map IntMember.value).Nodup) :
    fromFuzzyString E c = Except.ok m ∧
    (∀ q tgt, alookup (pyLower q) E.aliases = some tgt →
        fromFuzzyString E q = aliasResolveStr E tgt) ∧
    (∀ q, alookup (pyLower q) E.aliases = none → fromFuzzyString E q = fuzzyStep E q) ∧
    fromFuzzyIntString F c2 = Except.ok m2 ∧
    (∀ q tgt, alookup (pyLower q) F.aliases = some tgt →
        fromFuzzyIntString F q = aliasResolveInt F tgt) ∧
    (∀ q, alookup (pyLower q) F.aliases = none →
        fromFuzzyIntString F q = intFuzzyStep F q) := by
  refine ⟨?_, ?_, ?_, ?_, ?_, ?_⟩
  · subst hmv
    have hv2m : value2member E m.value = some m := findByValue_of_nodup E.members hnd hm
    simp only [fromFuzzyString, hck, hk, aliasResolveStr, hv2m]
  · intro q tgt hq
    simp only [fromFuzzyString, hq]
  · intro q hq
    simp only [fromFuzzyString, hq]
  · subst hmv2
    have hv2m : intValue2member F m2.value = some m2 :=
      findByIntValue_of_nodup F.members hnd2 hm2
    simp only [fromFuzzyIntString, hck2, hk2, aliasResolveInt, hv2m]
  · intro q tgt hq
    simp only [fromFuzzyIntString, hq]
  · intro q hq
    simp only [fromFuzzyIntString, hq]

/-- Claim C3 witness: the `Color` alias `dark -> dark_blue` and the
`ErrorCode` alias `missing -> 404` resolve in mixed case, their results
equal the alias-only resolution, and a raw-lowercase alias miss goes
straight to the post-alias steps in both variants. -/
theorem c3_alias_resolution_witness :
    fromFuzzyString colorEnum "DARK" = Except.ok ⟨"DARK_BLUE", "dark_blue"⟩ ∧
    fromFuzzyString colorEnum "dark" = aliasResolveStr colorEnum "dark_blue" ∧
    fromFuzzyString colorEnum "dark-x" = fuzzyStep colorEnum "dark-x" ∧
    fromFuzzyIntString errorCodeEnum "MISSING" = Except.ok ⟨"NOT_FOUND", 404⟩ ∧
    fromFuzzyIntString errorCodeEnum "Missing" = aliasResolveInt errorCodeEnum 404 ∧
    fromFuzzyIntString errorCodeEnum "ok-x" = intFuzzyStep errorCodeEnum "ok-x" := by
  have h := c3_alias_resolution colorEnum errorCodeEnum "DARK" "dark" "dark_blue"
      ⟨"DARK_BLUE", "dark_blue"⟩ "MISSING" "missing" 404 ⟨"NOT_FOUND", 404⟩
      (by decide) (by decide) (by decide) (by decide) (by decide)
      (by decide) (by decide) (by decide) (by decide) (by decide)
  exact ⟨h.1, h.2.1 "dark" "dark_blue" (by decide), h.2.2.1 "dark-x" (by decide),
         h.2.2.2.1, h.2.2.2.2.1 "Missing" 404 (by decide),
         h.2.2.2.2.2 "ok-x" (by decide)⟩

/-- Claim C4: an `OptionalBaseStrEnum` subclass without a `NONE` member is
rejected at definition time with the definition error, so the type never
becomes usable; a well-formed optional type resolves the absence input
(`None`) directly to its `NONE` member; and a string input whose fuzzy
resolution fails is an error — never silently converted to the sentinel. -/
theorem c4_optional_sentinel (B G : StrEnum) (mN : StrMember) (fuel : Nat)
    (hbad : findByName "NONE" B.members = none)
    (hgood : findByName "NONE" G.members = some mN) :
    initOptionalSubclass B = Except.error
      ("Class " ++ B.ename ++
        " must define a NONE member when inheriting from OptionalBaseStrEnum. Example: NONE = 'none'") ∧
    optCall G fuel Option.none = Except.ok mN ∧
    (∀ s e, value2member G s = none → optResolve G fuel true s = Except.error e →
        optCall G (Nat.succ fuel) (Option.some s) =
          Except.error ("'" ++ s ++ "' is not a valid " ++ G.ename)) := by
  refine ⟨?_, ?_, ?_⟩
  · simp only [initOptionalSubclass, hbad]
  · simp only [optCall, getNoneMember, hgood]
  · intro s e hv hf
    simp only [optCall, optResolve, hv, hf]

/-- Claim C4 witness: `BadStatus` (no `NONE`) fails at definition time;
`Status` resolves `None` to its `NONE` member; `Status("inactive")` fails
with the standard error instead of returning the sentinel. -/
theorem c4_optional_sentinel_witness :
    initOptionalSubclass badStatusEnum = Except.error
      "Class BadStatus must define a NONE member when inheriting from OptionalBaseStrEnum. Example: NONE = 'none'" ∧
    optCall statusEnum 5 Option.none = Except.ok ⟨"NONE", "none"⟩ ∧
    optCall statusEnum 6 (Option.some "inactive") =
      Except.error "'inactive' is not a valid Status" := by
  have h := c4_optional_sentinel badStatusEnum statusEnum ⟨"NONE", "none"⟩ 5
      (by decide) (by decide)
  exact ⟨h.1, h.2.1, h.2.2 "inactive" (strInvalidMsg statusEnum "inactive") (by rfl) (by rfl)⟩

/-- Claim C5: `get_or_none` is total on every input kind and swallows every
resolution failure: member input is returned as is, string input yields the
exact-construction result or else the fuzzy-resolution result (with failures
collapsed to `none`), and `None`, integers and other objects yield `none`
(for the int variant, integer input resolves through exact construction). -/
theorem c5_get_or_none_total (E : StrEnum) (F : IntEnum) :
    (∀ m, strGetOrNone E (StrInput.member m) = some m) ∧
    (∀ s m, plainCall E s = Except.ok m → strGetOrNone E (StrInput.str s) = some m) ∧
    (∀ s e m, plainCall E s = Except.error e → fromFuzzyString E s = Except.ok m →
        strGetOrNone E (StrInput.str s) = some m) ∧
    (∀ s e e2, plainCall E s = Except.error e → fromFuzzyString E s = Except.error e2 →
        strGetOrNone E (StrInput.str s) = none) ∧
    strGetOrNone E StrInput.noneVal = none ∧
    (∀ n, strGetOrNone E (StrInput.intVal n) = none) ∧
    strGetOrNone E StrInput.other = none ∧
    (∀ m, intGetOrNone F (IntInput.member m) = some m) ∧
    intGetOrNone F IntInput.noneVal = none ∧
    (∀ n m, intPlainCall F n = Except.ok m → intGetOrNone F (IntInput.intVal n) = some m) ∧
    (∀ n e, intPlainCall F n = Except.error e → intGetOrNone F (IntInput.intVal n) = none) ∧
    (∀ s m, fromFuzzyIntString F s = Except.ok m → intGetOrNone F (IntInput.str s) = some m) ∧
    (∀ s e, fromFuzzyIntString F s = Except.error e → intGetOrNone F (IntInput.str s) = none) ∧
    intGetOrNone F IntInput.other = none := by
  refine ⟨fun m => rfl, ?_, ?_, ?_, rfl, fun n => rfl, rfl, fun m => rfl, rfl, ?_, ?_, ?_, ?_, rfl⟩
  · intro s m h
    simp only [strGetOrNone, h]
  · intro s e m h1 h2
    simp only [strGetOrNone, h1, h2]
  · intro s e e2 h1 h2
    simp only [strGetOrNone, h1, h2]
  · intro n m h
    simp only [intGetOrNone, h]
  · intro n e h
    simp only [intGetOrNone, h]
  · intro s m h
    simp only [intGetOrNone, h]
  · intro s e h
    simp only [intGetOrNone, h]

/-- Claim C5 witness: concrete safe lookups on the test-suite enums — exact,
fuzzy and failing inputs, and an unmatched integer. -/
theorem c5_get_or_none_total_witness :
    strGetOrNone colorEnum (StrInput.str "red") = some ⟨"RED", "red"⟩ ∧
    strGetOrNone colorEnum (StrInput.str "dark") = some ⟨"DARK_BLUE", "dark_blue"⟩ ∧
    strGetOrNone colorEnum (StrInput.str "purple") = none ∧
    intGetOrNone errorCodeEnum (IntInput.intVal 200) = some ⟨"OK", 200⟩ ∧
    intGetOrNone errorCodeEnum (IntInput.intVal 500) = none := by
  have h := c5_get_or_none_total colorEnum errorCodeEnum
  refine ⟨h.2.1 "red" _ (by rfl), h.2.2.1 "dark" _ _ (by rfl) (by rfl),
      h.2.2.2.1 "purple" _ _ (by rfl) (by rfl),
      h.2.2.2.2.2.2.2.2.2.1 200 _ (by rfl),
      h.2.2.2.2.2.2.2.2.2.2.1 500 _ (by rfl)⟩

theorem strInvalidMsg_ne_broken (E : StrEnum) (s v : String) :
    strInvalidMsg E s ≠ brokenAliasMsg v E.ename := by
  intro h
  have h1 : (strInvalidMsg E s).data.head? = some '\'' := rfl
  rw [h] at h1
  have h2 : (brokenAliasMsg v E.ename).data.head? = some 'A' := rfl
  rw [h2] at h1
  injection h1 with h3
  exact absurd h3 (by decide)

theorem intInvalidMsg_ne_broken (E : IntEnum) (s v : String) :
    intInvalidMsg E s ≠ brokenAliasMsg v E.ename := by
  intro h
  have h1 : (intInvalidMsg E s).data.head? = some '\'' := rfl
  rw [h] at h1
  have h2 : (brokenAliasMsg v E.ename).data.head? = some 'A' := rfl
  rw [h2] at h1
  injection h1 with h3
  exact absurd h3 (by decide)

/-- Claim C6: integer fuzzy resolution tries the alias table, then the
lowercase-name cache, then integer parsing matched against member values, in
that order; the name cache indexes member names only; and a query that parses
as an integer but matches no member value fails with the same `InvalidValue`
error as a non-numeric unmatched query. -/
theorem c6_int_resolution_order (F : IntEnum) :
    (∀ s tgt, alookup (pyLower s) F.aliases = some tgt →
        fromFuzzyIntString F s = aliasResolveInt F tgt) ∧
    (∀ s m, alookup (pyLower s) F.aliases = none →
        alookup (pyLower s) (nameLookupMap F) = some m →
        fromFuzzyIntString F s = Except.ok m) ∧
    (∀ s n m, alookup (pyLower s) F.aliases = none →
        alookup (pyLower s) (nameLookupMap F) = none →
        pyIntOfString s = some n → intValue2member F n = some m →
        fromFuzzyIntString F s = Except.ok m) ∧
    (∀ s n, alookup (pyLower s) F.aliases = none →
        alookup (pyLower s) (nameLookupMap F) = none →
        pyIntOfString s = some n → intValue2member F n = none →
        fromFuzzyIntString F s = Except.error (intInvalidMsg F s)) ∧
    (∀ s, alookup (pyLower s) F.aliases = none →
        alookup (pyLower s) (nameLookupMap F) = none →
        pyIntOfString s = none →
        fromFuzzyIntString F s = Except.error (intInvalidMsg F s)) ∧
    (∀ k m, alookup k (nameLookupMap F) = some m →
        m ∈ F.members ∧ k = pyLower m.name) := by
  refine ⟨?_, ?_, ?_, ?_, ?_, ?_⟩
  · intro s tgt h
    simp only [fromFuzzyIntString, h]
  · intro s m h1 h2
    simp only [fromFuzzyIntString, intFuzzyStep, h1, h2]
  · intro s n m h1 h2 h3 h4
    simp only [fromFuzzyIntString, intFuzzyStep, h1, h2, h3, h4]
  · intro s n h1 h2 h3 h4
    simp only [fromFuzzyIntString, intFuzzyStep, h1, h2, h3, h4, intPlainCall]
  · intro s h1 h2 h3
    simp only [fromFuzzyIntString, intFuzzyStep, h1, h2, h3]
  · intro k m h
    obtain ⟨mem, hmem, hk, hv⟩ := nameLookupMap_shape F h
    exact ⟨hv ▸ hmem, hv ▸ hk⟩

/-- Claim C6 witness: the `ErrorCode` enum — alias precedence, name-cache
hit, numeric hits and the identical failure shape for a numeric miss (`500`)
and a non-numeric miss (`bad_request`); the key `"ok"` of the name cache is
a lowercase member name (of `OK = 200`), not a value. -/
theorem c6_int_resolution_order_witness :
    fromFuzzyIntString errorCodeEnum "missing" = aliasResolveInt errorCodeEnum 404 ∧
    fromFuzzyIntString errorCodeEnum "NOT_FOUND" = Except.ok ⟨"NOT_FOUND", 404⟩ ∧
    fromFuzzyIntString errorCodeEnum "404" = Except.ok ⟨"NOT_FOUND", 404⟩ ∧
    fromFuzzyIntString errorCodeEnum "500" =
      Except.error (intInvalidMsg errorCodeEnum "500") ∧
    fromFuzzyIntString errorCodeEnum "bad_request" =
      Except.error (intInvalidMsg errorCodeEnum "bad_request") ∧
    ((⟨"OK", 200⟩ : IntMember) ∈ errorCodeEnum.members ∧ "ok" = pyLower "OK") := by
  have h := c6_int_resolution_order errorCodeEnum
  exact ⟨h.1 "missing" 404 (by decide),
         h.2.1 "NOT_FOUND" ⟨"NOT_FOUND", 404⟩ (by decide) (by decide),
         h.2.2.1 "404" 404 ⟨"NOT_FOUND", 404⟩ (by decide) (by decide) (by decide) (by decide),
         h.2.2.2.1 "500" 500 (by decide) (by decide) (by decide) (by decide),
         h.2.2.2.2.1 "bad_request" (by decide) (by decide) (by decide),
         h.2.2.2.2.2 "ok" ⟨"OK", 200⟩ (by decide)⟩

/-- Claim C7: for both enum variants, an alias whose target value
corresponds to no member fails, when exercised in any letter case, with the
broken-alias error naming the target; enum definition (`enum.UNIQUE`
verification) does not inspect aliases; and no query that misses the alias
table can ever produce a broken-alias-shaped error. -/
theorem c7_broken_alias (E : StrEnum) (F : IntEnum) :
    (∀ q v, alookup (pyLower q) E.aliases = some v → value2member E v = none →
        fromFuzzyString E q = Except.error (brokenAliasMsg v E.ename)) ∧
    ((E.members.map StrMember.value).Nodup → verifyUnique E = Except.ok E) ∧
    (∀ q v, alookup (pyLower q) E.aliases = none →
        fromFuzzyString E q ≠ Except.error (brokenAliasMsg v E.ename)) ∧
    (∀ q v, alookup (pyLower q) F.aliases = some v → intValue2member F v = none →
        fromFuzzyIntString F q = Except.error (brokenAliasMsg (toString v) F.ename)) ∧
    ((F.members.map IntMember.value).Nodup → verifyIntUnique F = Except.ok F) ∧
    (∀ q v, alookup (pyLower q) F.aliases = none →
        fromFuzzyIntString F q ≠ Except.error (brokenAliasMsg v F.ename)) := by
  refine ⟨?_, ?_, ?_, ?_, ?_, ?_⟩
  · intro q v hq hv
    simp only [fromFuzzyString, hq, aliasResolveStr, hv, plainCall]
  · intro h
    simp only [verifyUnique, if_pos h]
  · intro q v hq h
    simp only [fromFuzzyString, hq] at h
    unfold fuzzyStep at h
    cases h1 : alookup (pyLower q) (fuzzyMap E) with
    | some m =>
        rw [h1] at h
        exact Except.noConfusion h
    | none =>
        rw [h1] at h
        cases h2 : alookup (normSep (pyLower q)) (fuzzyMap E) with
        | some m =>
            rw [h2] at h
            exact Except.noConfusion h
        | none =>
            rw [h2] at h
            exact strInvalidMsg_ne_broken E q v (Except.error.inj h)
  · intro q v hq hv
    simp only [fromFuzzyIntString, hq, aliasResolveInt, hv, intPlainCall]
  · intro h
    simp only [verifyIntUnique, if_pos h]
  · intro q v hq h
    simp only [fromFuzzyIntString, hq] at h
    unfold intFuzzyStep at h
    cases h1 : alookup (pyLower q) (nameLookupMap F) with
    | some m =>
        rw [h1] at h
        exact Except.noConfusion h
    | none =>
        simp only [h1] at h
        cases h2 : pyIntOfString q with
        | some n =>
            simp only [h2] at h
            cases h3 : intValue2member F n with
            | some m =>
                simp only [h3] at h
                exact Except.noConfusion h
            | none =>
                simp only [h3, intPlainCall] at h
                exact intInvalidMsg_ne_broken F q v (Except.error.inj h)
        | none =>
            simp only [h2] at h
            exact intInvalidMsg_ne_broken F q v (Except.error.inj h)

/-- Claim C7 witness: exercising the broken `dark -> navy` (string) and
`missing -> 404` (integer) aliases in upper case yields the broken-alias
errors naming the targets; both enum types themselves verify fine; and
non-alias queries never produce that error shape in either variant. -/
theorem c7_broken_alias_witness :
    fromFuzzyString brokenAliasEnum "DARK" =
      Except.error "Alias target 'navy' is not a valid member value for Palette" ∧
    verifyUnique brokenAliasEnum = Except.ok brokenAliasEnum ∧
    fromFuzzyString brokenAliasEnum "red" ≠
      Except.error (brokenAliasMsg "navy" "Palette") ∧
    fromFuzzyIntString brokenAliasIntEnum "MISSING" =
      Except.error "Alias target '404' is not a valid member value for Code" ∧
    verifyIntUnique brokenAliasIntEnum = Except.ok brokenAliasIntEnum ∧
    fromFuzzyIntString brokenAliasIntEnum "200" ≠
      Except.error (brokenAliasMsg "404" "Code") := by
  have h := c7_broken_alias brokenAliasEnum brokenAliasIntEnum
  exact ⟨h.1 "DARK" "navy" (by decide) (by decide), h.2.1 (by decide),
         h.2.2.1 "red" "navy" (by decide),
         h.2.2.2.1 "MISSING" 404 (by decide) (by decide), h.2.2.2.2.1 (by decide),
         h.2.2.2.2.2 "200" "404" (by decide)⟩

/-- Claim C8: whenever fuzzy resolution fails with `InvalidValue` (no alias,
cache, or numeric match), the error is exactly
`'<input>' is not a valid <TypeName>. Please use one of: '<v1>', '<v2>', ...`
with the member values quoted in declaration order — for both enum variants. -/
theorem c8_invalid_message_shape (E : StrEnum) (F : IntEnum) :
    (∀ s, alookup (pyLower s) E.aliases = none →
        alookup (pyLower s) (fuzzyMap E) = none →
        alookup (normSep (pyLower s)) (fuzzyMap E) = none →
        fromFuzzyString E s = Except.error
          ("'" ++ s ++ "' is not a valid " ++ E.ename ++ ". Please use one of: " ++
            String.intercalate ", " (E.members.map (fun m => "'" ++ m.value ++ "'")))) ∧
    (∀ s, alookup (pyLower s) F.aliases = none →
        alookup (pyLower s) (nameLookupMap F) = none →
        (∀ n, pyIntOfString s = some n → intValue2member F n = none) →
        fromFuzzyIntString F s = Except.error
          ("'" ++ s ++ "' is not a valid " ++ F.ename ++ ". Please use one of: " ++
            String.intercalate ", " (F.members.map (fun m => "'" ++ toString m.value ++ "'")))) := by
  constructor
  · intro s h1 h2 h3
    have h4 : fromFuzzyString E s = Except.error (strInvalidMsg E s) := by
      simp only [fromFuzzyString, h1, fuzzyStep, h2, h3]
    rw [h4]
    congr 1
    simp only [strInvalidMsg, invalidValueMsg, List.map_map]
    rfl
  · intro s h1 h2 h3
    have h4 : fromFuzzyIntString F s = Except.error (intInvalidMsg F s) := by
      cases hp : pyIntOfString s with
      | some n =>
          simp only [fromFuzzyIntString, intFuzzyStep, h1, h2, hp, h3 n hp, intPlainCall]
      | none =>
          simp only [fromFuzzyIntString, intFuzzyStep, h1, h2, hp]
    rw [h4]
    congr 1
    simp only [intInvalidMsg, invalidValueMsg, List.map_map]
    rfl

/-- Claim C8 witness: the spec's concrete scenario — `resolve("purple")` on
`Color` and `resolve("bad_request")` on `ErrorCode` produce the literal
message shapes. -/
theorem c8_invalid_message_shape_witness :
    fromFuzzyString colorEnum "purple" = Except.error
      "'purple' is not a valid Color. Please use one of: 'red', 'blue', 'dark_blue', 'light green'" ∧
    fromFuzzyIntString errorCodeEnum "bad_request" = Except.error
      "'bad_request' is not a valid ErrorCode. Please use one of: '200', '404'" := by
  have h := c8_invalid_message_shape colorEnum errorCodeEnum
  exact ⟨h.1 "purple" (by decide) (by decide) (by decide),
         h.2 "bad_request" (by decide) (by decide)
           (fun n hn => Option.noConfusion
             ((rfl : pyIntOfString "bad_request" = none).symm.trans hn))⟩

/-- The resolution variant described by the spec for the refinement claim:
identical alias step, but the raw-lowercase probe is skipped and the query is
always separator-normalized before the single cache probe. -/
def fromFuzzyStringAlwaysNorm (E : StrEnum) (s : String) : Except String StrMember :=
  match alookup (pyLower s) E.aliases with
  | some tgt => aliasResolveStr E tgt
  | none =>
      match alookup (normSep (pyLower s)) (fuzzyMap E) with
      | some m => Except.ok m
      | none => Except.error (strInvalidMsg E s)

/-- Claim C9: for every string enum (member names are identifiers, so they
contain no separator characters — guaranteed by Python's class syntax) and
every query string, the pipeline with the raw-lowercase pre-normalization
probe returns the same result, member or failure, as the variant that always
normalizes before probing: the pre-check is an optimization, not a semantic
change. -/
theorem c9_raw_probe_is_optimization (E : StrEnum) (hnames : NamesSepFree E) :
    ∀ s, fromFuzzyString E s = fromFuzzyStringAlwaysNorm E s := by
  intro s
  cases ha : alookup (pyLower s) E.aliases with
  | some tgt => simp only [fromFuzzyString, fromFuzzyStringAlwaysNorm, ha]
  | none =>
      simp only [fromFuzzyString, fromFuzzyStringAlwaysNorm, ha, fuzzyStep]
      cases h1 : alookup (pyLower s) (fuzzyMap E) with
      | some m =>
          have hfix := fuzzyMap_key_fixed E hnames h1
          simp only [h1, hfix]
      | none => simp only [h1]

/-- Claim C9 witness: both pipelines agree on the `Color` enum for a
separator variant, an alias, and a miss. -/
theorem c9_raw_probe_is_optimization_witness :
    fromFuzzyString colorEnum "LIGHT GREEN" = fromFuzzyStringAlwaysNorm colorEnum "LIGHT GREEN" ∧
    fromFuzzyString colorEnum "dark" = fromFuzzyStringAlwaysNorm colorEnum "dark" ∧
    fromFuzzyString colorEnum "purple" = fromFuzzyStringAlwaysNorm colorEnum "purple" := by
  have h := c9_raw_probe_is_optimization colorEnum (by decide)
  exact ⟨h "LIGHT GREEN", h "dark", h "purple"⟩

/-- Claim C10: for an `OptionalBaseStrEnum` subclass, direct construction
with a string that is not an exact member value funnels through the full
fuzzy resolution pipeline (aliases, case folding, separator folding) via the
`_missing_` hook before failing; plain `BaseStrEnum` construction performs
only the exact value lookup and then fails. -/
theorem c10_optional_construction_fuzzy (E : StrEnum) (fuel : Nat) :
    (∀ s, value2member E s = none →
        optCall E (Nat.succ fuel) (Option.some s) =
          (match optResolve E fuel true s with
           | Except.ok m => Except.ok m
           | Except.error _ => Except.error ("'" ++ s ++ "' is not a valid " ++ E.ename))) ∧
    (∀ s m, value2member E s = none → optResolve E fuel true s = Except.ok m →
        optCall E (Nat.succ fuel) (Option.some s) = Except.ok m) ∧
    (∀ s, value2member E s = none →
        plainCall E s = Except.error ("'" ++ s ++ "' is not a valid " ++ E.ename)) := by
  refine ⟨?_, ?_, ?_⟩
  · intro s hv
    simp only [optCall, optResolve, hv]
  · intro s m hv hf
    simp only [optCall, optResolve, hv, hf]
  · intro s hv
    simp only [plainCall, hv]

/-- Claim C10 witness: optional `Status` construction succeeds on the
uppercase member name and on the declared alias `act`, while plain
`BaseStrEnum` construction fails on the uppercase name. -/
theorem c10_optional_construction_fuzzy_witness :
    optCall statusAliasEnum 5 (Option.some "ACTIVE") = Except.ok ⟨"ACTIVE", "active"⟩ ∧
    optCall statusAliasEnum 5 (Option.some "act") = Except.ok ⟨"ACTIVE", "active"⟩ ∧
    plainCall statusAliasEnum "ACTIVE" = Except.error "'ACTIVE' is not a valid Status" := by
  have h := c10_optional_construction_fuzzy statusAliasEnum 4
  exact ⟨h.2.1 "ACTIVE" ⟨"ACTIVE", "active"⟩ (by rfl) (by rfl),
         h.2.1 "act" ⟨"ACTIVE", "active"⟩ (by rfl) (by rfl),
         h.2.2 "ACTIVE" (by rfl)⟩
